import Mathlib

/-!
Verification of `utils/case.py` (identifier case conversion) and
`utils/setdefault.py` (default-merge helper).

Strings are modelled as `List Char`; all characters that the word patterns
can put into a word are ASCII, so the ASCII-only case maps agree with
Python's `str.lower`/`str.upper`/`str.title` on every reachable input.
-/

/-! ## Character classes (ASCII ranges of the regex character classes) -/

/-- `[a-z]`. -/
def isAsciiLower (c : Char) : Bool := decide (97 ≤ c.toNat ∧ c.toNat ≤ 122)

/-- `[A-Z]`. -/
def isAsciiUpper (c : Char) : Bool := decide (65 ≤ c.toNat ∧ c.toNat ≤ 90)

/-- `[0-9]`. -/
def isAsciiDigit (c : Char) : Bool := decide (48 ≤ c.toNat ∧ c.toNat ≤ 57)

/-- `[A-Za-z]`. -/
def isAsciiAlpha (c : Char) : Bool := isAsciiLower c || isAsciiUpper c

/-- `[A-Za-z0-9]`, the snake-case word class. -/
def isAsciiAlnum (c : Char) : Bool := isAsciiAlpha c || isAsciiDigit c

/-- `[A-Za-z0-9_]`, the kebab-case word class. -/
def isKebabChar (c : Char) : Bool := isAsciiAlnum c || c == '_'

/-- `[a-z0-9_]`, the continuation class of a camel-case word. -/
def isCamelCont (c : Char) : Bool := isAsciiLower c || isAsciiDigit c || c == '_'

/-- Python's `str.lower` restricted to ASCII (all word characters are ASCII). -/
def toLowerA (c : Char) : Char := Char.toLower c

/-- Python's `str.upper` restricted to ASCII. -/
def toUpperA (c : Char) : Char := Char.toUpper c

/-- One step of Python's `str.title`: a cased character is uppercased when the
previous character is not cased, lowercased otherwise.  On our ASCII character
universe the cased characters are exactly the letters. -/
def pyTitleAux : Bool → List Char → List Char
  | _, [] => []
  | prevAlpha, c :: cs =>
      (if isAsciiAlpha c then (if prevAlpha then toLowerA c else toUpperA c) else c)
        :: pyTitleAux (isAsciiAlpha c) cs

/-- Python's `str.title` (ASCII). -/
def pyTitle (w : List Char) : List Char := pyTitleAux false w

/-- Python's `sep.join(words)`. -/
def joinSep (sep : Char) : List (List Char) → List Char
  | [] => []
  | [w] => w
  | w :: ws => w ++ sep :: joinSep sep ws

/-! ## Word segmentation

`CaseStyle.words` in the source is `re.findall` of a style-specific pattern.
The three patterns have no backtracking subtleties, so `findall` is a
left-to-right maximal-munch scan; we embed each scan as a character-by-character
state machine, structurally recursive so that it evaluates by `rfl`.

For `SnakeCase` (pattern `(?:\A|_)(_*[A-Za-z0-9]+)` with one capture group) and
`KebabCase` (pattern `(?:\A|-)(-*[A-Za-z0-9_]+)`) the scan shares one shape,
parameterised by the separator and the word character class:
a run of separators that is followed by a word character contributes all of
itself to the emitted word when the run starts at the beginning of the string,
and all but the consumed single separator otherwise; a word-class character not
preceded by a separator (and not at the string start) can never begin a match,
because `(?:\A|_)` fails at its position, so it is skipped. -/

/-- Scanner state: `normal` (no match can begin before the next separator),
`pending us` (separator seen; `us` are extra separator characters that the
group will absorb), `inWord w` (currently inside the capture group). -/
inductive ScanState where
  | normal
  | pending (us : List Char)
  | inWord (w : List Char)

/-- Left-to-right scan of `re.findall` for the snake/kebab patterns. -/
def scanAux (sep : Char) (wc : Char → Bool) : ScanState → List Char → List (List Char)
  | ScanState.inWord w, [] => [w]
  | ScanState.normal, [] => []
  | ScanState.pending _, [] => []
  | ScanState.normal, c :: cs =>
      if c = sep then scanAux sep wc (ScanState.pending []) cs
      else scanAux sep wc ScanState.normal cs
  | ScanState.pending us, c :: cs =>
      if c = sep then scanAux sep wc (ScanState.pending (us ++ [c])) cs
      else if wc c then scanAux sep wc (ScanState.inWord (us ++ [c])) cs
      else scanAux sep wc ScanState.normal cs
  | ScanState.inWord w, c :: cs =>
      if c = sep then w :: scanAux sep wc (ScanState.pending []) cs
      else if wc c then scanAux sep wc (ScanState.inWord (w ++ [c])) cs
      else w :: scanAux sep wc ScanState.normal cs

/-- Scanner for the camel pattern `(?:\A[a-z_]|[A-Z_])[a-z0-9_]*`: a word
starts at the string start on any letter or underscore, later only on an
uppercase letter or underscore, and continues through `[a-z0-9_]*`. -/
def camelAux : Option (List Char) → Bool → List Char → List (List Char)
  | Option.some w, _, [] => [w]
  | Option.none, _, [] => []
  | Option.some w, _, c :: cs =>
      if isCamelCont c then camelAux (Option.some (w ++ [c])) false cs
      else if isAsciiUpper c then w :: camelAux (Option.some [c]) false cs
      else w :: camelAux Option.none false cs
  | Option.none, atStart, c :: cs =>
      if isAsciiUpper c || c == '_' || (atStart && isAsciiLower c) then
        camelAux (Option.some [c]) false cs
      else
        camelAux Option.none false cs

/-! ## The three styles -/

/-- Errors raised by the embedded code. -/
inductive PyErr where
  | indexError
  | typeError
deriving DecidableEq

/-- `CamelCase.words`: `re.findall` of `(?:\A[a-z_]|[A-Z_])[a-z0-9_]*`. -/
def CamelCase.words (s : List Char) : List (List Char) :=
  camelAux Option.none true s

/-- `CamelCase.fmt`: `words[0].lower() + ''.join(word.title() for word in words[1:])`;
on an empty word list the subscript `words[0]` raises `IndexError`. -/
def CamelCase.fmt : List (List Char) → Except PyErr (List Char)
  | [] => Except.error PyErr.indexError
  | w :: ws => Except.ok (w.map toLowerA ++ (ws.map pyTitle).flatten)

/-- `SnakeCase.words`: `re.findall` of `(?:\A|_)(_*[A-Za-z0-9]+)`. -/
def SnakeCase.words (s : List Char) : List (List Char) :=
  scanAux '_' isAsciiAlnum (ScanState.pending []) s

/-- `SnakeCase.fmt`: `'_'.join(word.lower() for word in words)`. -/
def SnakeCase.fmt (ws : List (List Char)) : Except PyErr (List Char) :=
  Except.ok (joinSep '_' (ws.map (List.map toLowerA)))

/-- `KebabCase.words`: `re.findall` of `(?:\A|-)(-*[A-Za-z0-9_]+)`. -/
def KebabCase.words (s : List Char) : List (List Char) :=
  scanAux '-' isKebabChar (ScanState.pending []) s

/-- `KebabCase.fmt`: `'-'.join(word.lower() for word in words)`. -/
def KebabCase.fmt (ws : List (List Char)) : Except PyErr (List Char) :=
  Except.ok (joinSep '-' (ws.map (List.map toLowerA)))

/-- The three `CaseStyle` subclasses. -/
inductive CaseStyle where
  | camel
  | snake
  | kebab
deriving DecidableEq

/-- Dispatch of the classmethod `words` over the style. -/
def CaseStyle.words : CaseStyle → List Char → List (List Char)
  | CaseStyle.camel => CamelCase.words
  | CaseStyle.snake => SnakeCase.words
  | CaseStyle.kebab => KebabCase.words

/-- Dispatch of the classmethod `fmt` over the style. -/
def CaseStyle.fmt : CaseStyle → List (List Char) → Except PyErr (List Char)
  | CaseStyle.camel => CamelCase.fmt
  | CaseStyle.snake => SnakeCase.fmt
  | CaseStyle.kebab => KebabCase.fmt

/-- `convert(string, src, dest) = dest.fmt(src.words(string))`. -/
def convert (string : List Char) (src dest : CaseStyle) : Except PyErr (List Char) :=
  dest.fmt (src.words string)

/-- The spec's reading of "titlecased": first character uppercased, every
remaining character lowercased (Python's `str.capitalize`, not `str.title`). -/
def specTitle : List Char → List Char
  | [] => []
  | c :: cs => toUpperA c :: cs.map toLowerA

/-! ## `utils/setdefault.py`

The value universe covers the Python values the module manipulates: `None`,
integers, strings, lists, sets and dicts.  Lists of values and association
lists of dict entries are mutually inductive with values so that every
function on them is structurally recursive (and hence evaluates by `rfl`). -/

mutual
/-- A Python value. -/
inductive PyVal where
  | none
  | int (n : Int)
  | str (s : List Char)
  | pylist (xs : PyList)
  | pyset (xs : PyList)
  | pydict (xs : PyPairs)
/-- A sequence of Python values (list/set contents, in order). -/
inductive PyList where
  | nil
  | cons (head : PyVal) (tail : PyList)
/-- Dict entries in insertion order. -/
inductive PyPairs where
  | nil
  | cons (key val : PyVal) (tail : PyPairs)
end

/-- Build a `PyList` from a Lean list (notation convenience). -/
def PyList.ofList : List PyVal → PyList
  | [] => PyList.nil
  | x :: xs => PyList.cons x (PyList.ofList xs)

/-- Back to a Lean list. -/
def PyList.toList : PyList → List PyVal
  | PyList.nil => []
  | PyList.cons x xs => x :: PyList.toList xs

/-- Build `PyPairs` from a Lean list of pairs. -/
def PyPairs.ofList : List (PyVal × PyVal) → PyPairs
  | [] => PyPairs.nil
  | (k, v) :: xs => PyPairs.cons k v (PyPairs.ofList xs)

/-- Concatenation of dict entry sequences. -/
def PyPairs.append : PyPairs → PyPairs → PyPairs
  | PyPairs.nil, ys => ys
  | PyPairs.cons k v xs, ys => PyPairs.cons k v (xs.append ys)

mutual
/-- Python `==` on our value universe.  It is used only to compare dict keys;
keys are hashable primitives (`None`, `int`, `str`) in every reachable call,
where structural equality coincides with Python's `==`. -/
def pyBeq : PyVal → PyVal → Bool
  | PyVal.none, PyVal.none => true
  | PyVal.int a, PyVal.int b => a == b
  | PyVal.str a, PyVal.str b => a == b
  | PyVal.pylist a, PyVal.pylist b => pyBeqList a b
  | PyVal.pyset a, PyVal.pyset b => pyBeqList a b
  | PyVal.pydict a, PyVal.pydict b => pyBeqPairs a b
  | _, _ => false
/-- Elementwise equality of value sequences. -/
def pyBeqList : PyList → PyList → Bool
  | PyList.nil, PyList.nil => true
  | PyList.cons a as, PyList.cons b bs => pyBeq a b && pyBeqList as bs
  | _, _ => false
/-- Entrywise equality of dict entry sequences. -/
def pyBeqPairs : PyPairs → PyPairs → Bool
  | PyPairs.nil, PyPairs.nil => true
  | PyPairs.cons k v xs, PyPairs.cons k2 v2 ys => pyBeq k k2 && pyBeq v v2 && pyBeqPairs xs ys
  | _, _ => false
end

/-- Python's runtime types occurring in the universe. -/
inductive PyType where
  | noneType
  | intType
  | strType
  | listType
  | setType
  | dictType
deriving DecidableEq

/-- `type(value)`. -/
def PyVal.pytype : PyVal → PyType
  | PyVal.none => PyType.noneType
  | PyVal.int _ => PyType.intType
  | PyVal.str _ => PyType.strType
  | PyVal.pylist _ => PyType.listType
  | PyVal.pyset _ => PyType.setType
  | PyVal.pydict _ => PyType.dictType

/-- `value is None`. -/
def PyVal.isNone : PyVal → Bool
  | PyVal.none => true
  | _ => false

/-- Modelled from the spec: the source tests `issubclass(cls, Mapping)` but the
name `Mapping` is not bound by the sources given (its import travels with the
missing `utils.merge` module); per the spec's "mapping-like" the only mapping
type of the universe is `dict`. -/
def PyType.isMapping : PyType → Bool
  | PyType.dictType => true
  | _ => false

/-- Modelled from the spec: `issubclass(cls, MutableSequence)` with the
`MutableSequence` abstract base class unbound in the sources given; per the
spec's "mutable-sequence-like", `list` is the only mutable sequence of the
universe (`str` is an immutable sequence). -/
def PyType.isMutableSequence : PyType → Bool
  | PyType.listType => true
  | _ => false

/-- Modelled from the spec: `issubclass(cls, Set)` with the `Set` abstract
base class unbound in the sources given; `set` is the only set-like type. -/
def PyType.isSet : PyType → Bool
  | PyType.setType => true
  | _ => false

/-- Iterating a value, as `*value` argument unpacking and the one-argument
collection constructors do: lists and sets yield their elements, dicts their
keys, strings their characters; `None` and `int` raise `TypeError`. -/
def pyIter : PyVal → Except PyErr (List PyVal)
  | PyVal.pylist xs => Except.ok xs.toList
  | PyVal.pyset xs => Except.ok xs.toList
  | PyVal.pydict xs => Except.ok (pyKeys xs)
  | PyVal.str s => Except.ok (s.map (fun c => PyVal.str [c]))
  | _ => Except.error PyErr.typeError
where
  /-- The keys of a dict, in order. -/
  pyKeys : PyPairs → List PyVal
    | PyPairs.nil => []
    | PyPairs.cons k _ t => k :: pyKeys t

/-- A list of 2-element sequences turned into dict entries, as `dict(pairs)`
does; anything else raises `TypeError`. -/
def pairsOfList : List PyVal → Except PyErr PyPairs
  | [] => Except.ok PyPairs.nil
  | PyVal.pylist (PyList.cons k (PyList.cons v PyList.nil)) :: rest =>
      match pairsOfList rest with
      | Except.ok t => Except.ok (PyPairs.cons k v t)
      | Except.error e => Except.error e
  | _ => Except.error PyErr.typeError

/-- The call `cls(x)` for a single argument.  `int()`/`str()` conversions
between distinct primitive types are modelled as `TypeError` (Python would
parse or pretty-print instead); no claim depends on them. -/
def construct1 : PyType → PyVal → Except PyErr PyVal
  | PyType.noneType, _ => Except.error PyErr.typeError
  | PyType.intType, PyVal.int n => Except.ok (PyVal.int n)
  | PyType.intType, _ => Except.error PyErr.typeError
  | PyType.strType, PyVal.str s => Except.ok (PyVal.str s)
  | PyType.strType, _ => Except.error PyErr.typeError
  | PyType.listType, v =>
      match pyIter v with
      | Except.ok xs => Except.ok (PyVal.pylist (PyList.ofList xs))
      | Except.error e => Except.error e
  | PyType.setType, v =>
      match pyIter v with
      | Except.ok xs => Except.ok (PyVal.pyset (PyList.ofList (dedup xs)))
      | Except.error e => Except.error e
  | PyType.dictType, PyVal.pydict xs => Except.ok (PyVal.pydict xs)
  | PyType.dictType, PyVal.pylist xs =>
      match pairsOfList xs.toList with
      | Except.ok ps => Except.ok (PyVal.pydict ps)
      | Except.error e => Except.error e
  | PyType.dictType, _ => Except.error PyErr.typeError
where
  /-- Set construction keeps one copy of equal elements (first occurrence). -/
  dedup : List PyVal → List PyVal
    | [] => []
    | x :: xs => x :: (dedup xs).filter (fun y => !(pyBeq x y))

/-- The call `cls(a₁, …, aₙ)` with `n` positional arguments: the collection
constructors and `str` accept at most one argument, `int()` is `0`. -/
def constructN (t : PyType) (args : List PyVal) : Except PyErr PyVal :=
  match args with
  | [] =>
      match t with
      | PyType.intType => Except.ok (PyVal.int 0)
      | PyType.strType => Except.ok (PyVal.str [])
      | PyType.listType => Except.ok (PyVal.pylist PyList.nil)
      | PyType.setType => Except.ok (PyVal.pyset PyList.nil)
      | PyType.dictType => Except.ok (PyVal.pydict PyPairs.nil)
      | PyType.noneType => Except.error PyErr.typeError
  | [x] => construct1 t x
  | _ => Except.error PyErr.typeError

/-- Looking a key up in a dict entry sequence (first match wins). -/
def lookupPairs (k : PyVal) : PyPairs → Option PyVal
  | PyPairs.nil => Option.none
  | PyPairs.cons k2 v t => if pyBeq k k2 then Option.some v else lookupPairs k t

/-- The entries of `de` whose key does not occur in `ve`. -/
def pairsNotIn (de ve : PyPairs) : PyPairs :=
  match de with
  | PyPairs.nil => PyPairs.nil
  | PyPairs.cons k v t =>
      if (lookupPairs k ve).isSome then pairsNotIn t ve
      else PyPairs.cons k v (pairsNotIn t ve)

/-- Modelled from the spec: whether a nested merge may descend further, given
the depth limit (`none`/`-1` mean unlimited, `1` means top level only). -/
def depthOk : Option Int → Bool
  | Option.none => true
  | Option.some d => d == -1 || decide (1 < d)

/-- Modelled from the spec: the depth limit left for the entries one level
down. -/
def depthDec : Option Int → Option Int
  | Option.none => Option.none
  | Option.some d => if d == -1 then Option.some (-1) else Option.some (d - 1)

mutual
/-- Modelled from the spec: merging dict entries, `value`'s entries (third
argument) winning on key conflicts and nested mappings merged recursively
while the depth limit allows. -/
def mergePairs (depth : Option Int) (de : PyPairs) : PyPairs → PyPairs
  | PyPairs.nil => PyPairs.nil
  | PyPairs.cons k vv t =>
      PyPairs.cons k
        (match lookupPairs k de with
          | Option.some dv => mergeVal depth dv vv
          | Option.none => vv)
        (mergePairs depth de t)
/-- Modelled from the spec: merging one default value into one value; only a
pair of dicts merges, anything else keeps the value. -/
def mergeVal (depth : Option Int) (dv : PyVal) : PyVal → PyVal
  | PyVal.pydict ve =>
      match dv with
      | PyVal.pydict de =>
          if depthOk depth then
            PyVal.pydict ((mergePairs (depthDec depth) de ve).append (pairsNotIn de ve))
          else PyVal.pydict ve
      | _ => PyVal.pydict ve
  | vv => vv
end

/-- Modelled from the spec: `merge_mappings` of the repository's `utils.merge`
module, which is not among the sources given.  Per the spec (§4.4) it
recursively merges `default` into `value`, preferring `value`'s entries on key
conflicts and descending into nested mappings up to the depth limit, where
`None`/`-1` mean no limit; the result keeps `value`'s entries first, then
`default`'s remaining ones.  The `_type` argument names the mapping type to
build; `dict` is the only mapping type of the universe. -/
def merge_mappings (depth : Option Int) (dflt value : PyVal) (_type : PyType) :
    Except PyErr PyVal :=
  match dflt, value with
  | PyVal.pydict de, PyVal.pydict ve =>
      Except.ok (PyVal.pydict ((mergePairs (depthDec depth) de ve).append (pairsNotIn de ve)))
  | _, _ => Except.error PyErr.typeError

/-- `_setdefault_dict(value, default, cls)`. -/
def _setdefault_dict (value dflt : PyVal) (cls : PyType) : Except PyErr PyVal :=
  if cls.isMapping then merge_mappings Option.none dflt value cls
  else Except.ok value

/-- `value | default`; on two sets this is set union (kept in `value`-first
order).  Python defines `|` on other types too (bitwise or on `int`, merge on
`dict`), but with the default `cls = type(value)` the guard
`issubclass(cls, Set)` makes two sets the only reachable case; the rest is
modelled as `TypeError`. -/
def pyUnion (value dflt : PyVal) : Except PyErr PyVal :=
  match value, dflt with
  | PyVal.pyset xs, PyVal.pyset ys => Except.ok (PyVal.pyset (unionAux xs ys))
  | _, _ => Except.error PyErr.typeError
where
  /-- Elements of the first set, then elements of the second not already
  present. -/
  unionAux (xs ys : PyList) : PyList :=
    go xs (filterNew ys xs)
  /-- Append. -/
  go : PyList → PyList → PyList
    | PyList.nil, ys => ys
    | PyList.cons x xs, ys => PyList.cons x (go xs ys)
  /-- The elements of `ys` not occurring in `xs`. -/
  filterNew : PyList → PyList → PyList
    | PyList.nil, _ => PyList.nil
    | PyList.cons y ys, xs =>
        if memAux y xs then filterNew ys xs else PyList.cons y (filterNew ys xs)
  /-- Membership by Python equality. -/
  memAux (y : PyVal) : PyList → Bool
    | PyList.nil => false
    | PyList.cons x xs => pyBeq y x || memAux y xs

/-- `_setdefault_set(value, default, cls)`. -/
def _setdefault_set (value dflt : PyVal) (cls : PyType) : Except PyErr PyVal :=
  if cls.isSet then pyUnion value dflt
  else Except.ok value

/-- `_setdefault_list(value, default, cls)`: note the source builds
`cls(*default, *value)` — the merged elements are passed as separate
positional arguments, not as one iterable. -/
def _setdefault_list (value dflt : PyVal) (cls : PyType) : Except PyErr PyVal :=
  if cls.isMutableSequence then
    match pyIter dflt, pyIter value with
    | Except.ok ds, Except.ok vs => constructN cls (ds ++ vs)
    | Except.error e, _ => Except.error e
    | _, Except.error e => Except.error e
  else Except.ok value

/-- The effective target type: `cls` when given (a class object is always
truthy), else `type(value)`. -/
def effectiveCls (value : PyVal) (cls : Option PyType) : PyType :=
  match cls with
  | Option.some t => t
  | Option.none => value.pytype

/-- `setdefault(value, default, cls=None, merge_lists=False, merge_sets=False,
merge_dicts=False, depth=1)`.  The `depth` parameter appears in the signature
(and its docstring) but the body never reads it. -/
def setdefault (value dflt : PyVal) (cls : Option PyType)
    (merge_lists merge_sets merge_dicts : Bool) (depth : Int) : Except PyErr PyVal :=
  if value.isNone then
    match cls with
    | Option.some t => construct1 t dflt
    | Option.none => Except.ok dflt
  else if dflt.isNone then
    match cls with
    | Option.some t => construct1 t value
    | Option.none => Except.ok value
  else
    let c := effectiveCls value cls
    if merge_dicts then _setdefault_dict value dflt c
    else if merge_lists then _setdefault_list value dflt c
    else if merge_sets then _setdefault_set value dflt c
    else Except.ok value

/-- Shorthand for building dict values. -/
def pyD (xs : List (PyVal × PyVal)) : PyVal := PyVal.pydict (PyPairs.ofList xs)

/-- Shorthand for building list values. -/
def pyL (xs : List PyVal) : PyVal := PyVal.pylist (PyList.ofList xs)

/-- Shorthand for building string values. -/
def pyStr (s : String) : PyVal := PyVal.str s.toList

/-- Shorthand for integer values. -/
def pyI (n : Int) : PyVal := PyVal.int n

/-! ## Character-level lemmas -/

theorem char_toNat_ofNat (n : Nat) (h : n < 55296) : (Char.ofNat n).toNat = n := by
  rw [Char.ofNat, dif_pos (Or.inl h)]
  rfl

theorem isAsciiLower_iff {c : Char} : isAsciiLower c = true ↔ 97 ≤ c.toNat ∧ c.toNat ≤ 122 := by
  simp [isAsciiLower]

theorem isAsciiUpper_iff {c : Char} : isAsciiUpper c = true ↔ 65 ≤ c.toNat ∧ c.toNat ≤ 90 := by
  simp [isAsciiUpper]

theorem toLowerA_of_upper {c : Char} (h : isAsciiUpper c = true) :
    (toLowerA c).toNat = c.toNat + 32 := by
  rcases isAsciiUpper_iff.mp h with ⟨h1, h2⟩
  show (Char.toLower c).toNat = c.toNat + 32
  rw [Char.toLower]
  rw [if_pos ⟨h1, h2⟩]
  exact char_toNat_ofNat _ (by omega)

theorem toLowerA_eq_self {c : Char} (h : isAsciiUpper c = false) : toLowerA c = c := by
  show Char.toLower c = c
  rw [Char.toLower]
  rw [if_neg]
  intro hc
  rw [show (65 ≤ c.toNat ∧ c.toNat ≤ 90) = (isAsciiUpper c = true) by simp [isAsciiUpper_iff]] at hc
  rw [h] at hc
  cases hc

theorem toUpperA_of_lower {c : Char} (h : isAsciiLower c = true) :
    (toUpperA c).toNat = c.toNat - 32 := by
  rcases isAsciiLower_iff.mp h with ⟨h1, h2⟩
  show (Char.toUpper c).toNat = c.toNat - 32
  rw [Char.toUpper]
  rw [if_pos ⟨h1, h2⟩]
  exact char_toNat_ofNat _ (by omega)

theorem toUpperA_eq_self {c : Char} (h : isAsciiLower c = false) : toUpperA c = c := by
  show Char.toUpper c = c
  rw [Char.toUpper]
  rw [if_neg]
  intro hc
  rw [show (97 ≤ c.toNat ∧ c.toNat ≤ 122) = (isAsciiLower c = true) by simp [isAsciiLower_iff]] at hc
  rw [h] at hc
  cases hc

theorem isAsciiLower_toLowerA {c : Char} (h : isAsciiAlpha c = true) :
    isAsciiLower (toLowerA c) = true := by
  rcases Bool.or_eq_true_iff.mp (by simpa [isAsciiAlpha] using h) with hl | hu
  · rcases isAsciiLower_iff.mp hl with ⟨h1, h2⟩
    have : isAsciiUpper c = false := by
      simp [isAsciiUpper]
      omega
    rw [toLowerA_eq_self this]
    exact hl
  · have := toLowerA_of_upper hu
    rcases isAsciiUpper_iff.mp hu with ⟨h1, h2⟩
    rw [isAsciiLower_iff, this]
    omega

theorem isAsciiUpper_toUpperA {c : Char} (h : isAsciiAlpha c = true) :
    isAsciiUpper (toUpperA c) = true := by
  rcases Bool.or_eq_true_iff.mp (by simpa [isAsciiAlpha] using h) with hl | hu
  · have := toUpperA_of_lower hl
    rcases isAsciiLower_iff.mp hl with ⟨h1, h2⟩
    rw [isAsciiUpper_iff, this]
    omega
  · rcases isAsciiUpper_iff.mp hu with ⟨h1, h2⟩
    have : isAsciiLower c = false := by
      simp [isAsciiLower]
      omega
    rw [toUpperA_eq_self this]
    exact hu

theorem isAsciiAlpha_toLowerA {c : Char} (h : isAsciiAlpha c = true) :
    isAsciiAlpha (toLowerA c) = true := by
  rw [isAsciiAlpha, isAsciiLower_toLowerA h]
  rfl

theorem isAsciiAlpha_toUpperA {c : Char} (h : isAsciiAlpha c = true) :
    isAsciiAlpha (toUpperA c) = true := by
  rw [isAsciiAlpha, isAsciiUpper_toUpperA h]
  simp

theorem toLowerA_toLowerA (c : Char) : toLowerA (toLowerA c) = toLowerA c := by
  cases hu : isAsciiUpper c with
  | false => rw [toLowerA_eq_self hu, toLowerA_eq_self hu]
  | true =>
      apply toLowerA_eq_self
      have := toLowerA_of_upper hu
      rcases isAsciiUpper_iff.mp hu with ⟨h1, h2⟩
      simp [isAsciiUpper]
      omega

theorem toUpperA_toUpperA_of_alpha {c : Char} (h : isAsciiAlpha c = true) :
    toUpperA (toUpperA c) = toUpperA c := by
  apply toUpperA_eq_self
  have hu := isAsciiUpper_toUpperA h
  rcases isAsciiUpper_iff.mp hu with ⟨h1, h2⟩
  simp [isAsciiLower]
  omega

theorem isCamelCont_toLowerA {c : Char} (h : isAsciiAlpha c = true) :
    isCamelCont (toLowerA c) = true := by
  rw [isCamelCont, isAsciiLower_toLowerA h]
  rfl

theorem isCamelCont_toUpperA {c : Char} (h : isAsciiAlpha c = true) :
    isCamelCont (toUpperA c) = false := by
  have hu := isAsciiUpper_toUpperA h
  rcases isAsciiUpper_iff.mp hu with ⟨h1, h2⟩
  have e1 : isAsciiLower (toUpperA c) = false := by
    simp [isAsciiLower]
    omega
  have e2 : isAsciiDigit (toUpperA c) = false := by
    simp [isAsciiDigit]
    omega
  have e3 : (toUpperA c == '_') = false := by
    rw [beq_eq_false_iff_ne]
    intro he
    rw [he] at h1 h2
    simp at h1 h2
  rw [isCamelCont, e1, e2, e3]
  rfl

theorem snake_char_ok {c : Char} (h : isAsciiAlpha c = true) :
    isAsciiAlnum (toLowerA c) = true ∧ toLowerA c ≠ '_' := by
  have hl := isAsciiLower_toLowerA h
  rcases isAsciiLower_iff.mp hl with ⟨h1, h2⟩
  constructor
  · rw [isAsciiAlnum, isAsciiAlpha, hl]
    rfl
  · intro he
    rw [he] at h1 h2
    simp at h1 h2

theorem kebab_char_ok {c : Char} (h : isAsciiAlpha c = true) :
    isKebabChar (toLowerA c) = true ∧ toLowerA c ≠ '-' := by
  have hl := isAsciiLower_toLowerA h
  rcases isAsciiLower_iff.mp hl with ⟨h1, h2⟩
  constructor
  · rw [isKebabChar, isAsciiAlnum, isAsciiAlpha, hl]
    rfl
  · intro he
    rw [he] at h1 h2
    simp at h1 h2

/-! ## `str.title` on alphabetic words -/

theorem map_toLowerA_idem (w : List Char) : (w.map toLowerA).map toLowerA = w.map toLowerA := by
  induction w with
  | nil => rfl
  | cons c cs ih => rw [List.map_cons, List.map_cons, toLowerA_toLowerA, ih]

theorem pyTitleAux_true_alpha (cs : List Char) (h : ∀ c ∈ cs, isAsciiAlpha c = true) :
    pyTitleAux true cs = cs.map toLowerA := by
  induction cs with
  | nil => rfl
  | cons c cs ih =>
      have hc := h c (by simp)
      rw [pyTitleAux, if_pos hc, hc, if_pos rfl]
      rw [ih (fun x hx => h x (by simp [hx]))]
      rfl

theorem pyTitle_alpha (c : Char) (cs : List Char) (h : ∀ x ∈ c :: cs, isAsciiAlpha x = true) :
    pyTitle (c :: cs) = toUpperA c :: cs.map toLowerA := by
  have hc := h c (by simp)
  rw [pyTitle, pyTitleAux, if_pos hc, hc]
  rw [pyTitleAux_true_alpha cs (fun x hx => h x (by simp [hx]))]
  rw [if_neg Bool.false_ne_true]

theorem pyTitle_eq_specTitle (w : List Char) (h : ∀ c ∈ w, isAsciiAlpha c = true) :
    pyTitle w = specTitle w := by
  cases w with
  | nil => rfl
  | cons c cs => rw [pyTitle_alpha c cs h, specTitle]

theorem pyTitle_pyTitle (w : List Char) (h : ∀ c ∈ w, isAsciiAlpha c = true) :
    pyTitle (pyTitle w) = pyTitle w := by
  cases w with
  | nil => rfl
  | cons c cs =>
      rw [pyTitle_alpha c cs h]
      have hc := h c (by simp)
      have halpha : ∀ x ∈ toUpperA c :: cs.map toLowerA, isAsciiAlpha x = true := by
        intro x hx
        rcases List.mem_cons.mp hx with he | hm
        · rw [he]
          exact isAsciiAlpha_toUpperA hc
        · rcases List.mem_map.mp hm with ⟨y, hy, he⟩
          rw [← he]
          exact isAsciiAlpha_toLowerA (h y (by simp [hy]))
      rw [pyTitle_alpha _ _ halpha, toUpperA_toUpperA_of_alpha hc]
      congr 1
      exact map_toLowerA_idem cs

/-! ## The snake/kebab scanner on joined words -/

theorem scanAux_chars (sep : Char) (wc : Char → Bool) (w : List Char)
    (hw : ∀ c ∈ w, wc c = true ∧ c ≠ sep) : ∀ (u r : List Char),
    scanAux sep wc (ScanState.inWord u) (w ++ r) =
      scanAux sep wc (ScanState.inWord (u ++ w)) r := by
  induction w with
  | nil => intro u r; rw [List.nil_append, List.append_nil]
  | cons c cs ih =>
      intro u r
      have hc := hw c (by simp)
      rw [List.cons_append, scanAux, if_neg hc.2, if_pos hc.1]
      rw [ih (fun x hx => hw x (by simp [hx])) (u ++ [c]) r]
      rw [List.append_assoc]
      rfl

theorem scanAux_start (sep : Char) (wc : Char → Bool) (w : List Char)
    (hne : w ≠ []) (hw : ∀ c ∈ w, wc c = true ∧ c ≠ sep) (r : List Char) :
    scanAux sep wc (ScanState.pending []) (w ++ r) =
      scanAux sep wc (ScanState.inWord w) r := by
  cases w with
  | nil => exact absurd rfl hne
  | cons c cs =>
      have hc := hw c (by simp)
      rw [List.cons_append, scanAux, if_neg hc.2, if_pos hc.1, List.nil_append]
      rw [scanAux_chars sep wc cs (fun x hx => hw x (by simp [hx])) [c] r]
      rfl

theorem scanAux_join (sep : Char) (wc : Char → Bool) (ws : List (List Char))
    (h : ∀ w ∈ ws, w ≠ [] ∧ ∀ c ∈ w, wc c = true ∧ c ≠ sep) :
    scanAux sep wc (ScanState.pending []) (joinSep sep ws) = ws := by
  induction ws with
  | nil => rfl
  | cons w ws ih =>
      cases ws with
      | nil =>
          have hw := h w (by simp)
          have h1 := scanAux_start sep wc w hw.1 hw.2 []
          rw [List.append_nil] at h1
          rw [show joinSep sep [w] = w from rfl, h1]
          rfl
      | cons w2 rest =>
          have hw := h w (by simp)
          rw [show joinSep sep (w :: w2 :: rest) = w ++ sep :: joinSep sep (w2 :: rest) from rfl]
          rw [scanAux_start sep wc w hw.1 hw.2 _]
          rw [scanAux, if_pos rfl]
          rw [ih (fun x hx => h x (by simp [hx]))]

/-! ## The camel scanner on formatted output -/

theorem camelAux_some_bool (u : List Char) (b : Bool) (l : List Char) :
    camelAux (Option.some u) b l = camelAux (Option.some u) false l := by
  cases l <;> rfl

theorem camelAux_chars (w : List Char) (hw : ∀ c ∈ w, isCamelCont c = true) :
    ∀ (u r : List Char),
    camelAux (Option.some u) false (w ++ r) = camelAux (Option.some (u ++ w)) false r := by
  induction w with
  | nil => intro u r; rw [List.nil_append, List.append_nil]
  | cons c cs ih =>
      intro u r
      have hc := hw c (by simp)
      rw [List.cons_append, camelAux, if_pos hc]
      rw [ih (fun x hx => hw x (by simp [hx])) (u ++ [c]) r]
      rw [List.append_assoc]
      rfl

theorem camelAux_titles (tws : List (List Char))
    (h : ∀ w ∈ tws, w ≠ [] ∧ ∀ c ∈ w, isAsciiAlpha c = true) : ∀ (u : List Char),
    camelAux (Option.some u) false ((tws.map pyTitle).flatten) = u :: tws.map pyTitle := by
  induction tws with
  | nil => intro u; rfl
  | cons w rest ih =>
      intro u
      have hw := h w (by simp)
      obtain ⟨c, cs, rfl⟩ := List.exists_cons_of_ne_nil hw.1
      have hal : ∀ x ∈ c :: cs, isAsciiAlpha x = true := hw.2
      have hc : isAsciiAlpha c = true := hal c (by simp)
      rw [List.map_cons, List.flatten_cons, pyTitle_alpha c cs hal]
      rw [List.cons_append, camelAux]
      rw [if_neg (by rw [isCamelCont_toUpperA hc]; exact Bool.false_ne_true)]
      rw [if_pos (isAsciiUpper_toUpperA hc)]
      have hcont : ∀ x ∈ cs.map toLowerA, isCamelCont x = true := by
        intro x hx
        rcases List.mem_map.mp hx with ⟨y, hy, he⟩
        rw [← he]
        exact isCamelCont_toLowerA (hal y (by simp [hy]))
      rw [camelAux_chars (cs.map toLowerA) hcont [toUpperA c] _, List.singleton_append]
      rw [ih (fun x hx => h x (by simp [hx])) (toUpperA c :: cs.map toLowerA)]

theorem camel_words_of_fmt (w : List Char) (tws : List (List Char))
    (hw : w ≠ [] ∧ ∀ c ∈ w, isAsciiAlpha c = true)
    (h : ∀ v ∈ tws, v ≠ [] ∧ ∀ c ∈ v, isAsciiAlpha c = true) :
    CamelCase.words (w.map toLowerA ++ (tws.map pyTitle).flatten) =
      w.map toLowerA :: tws.map pyTitle := by
  obtain ⟨c, cs, rfl⟩ := List.exists_cons_of_ne_nil hw.1
  have hal : ∀ x ∈ c :: cs, isAsciiAlpha x = true := hw.2
  have hc : isAsciiAlpha c = true := hal c (by simp)
  rw [CamelCase.words, List.map_cons, List.cons_append, camelAux]
  rw [if_pos (by
    rw [Bool.true_and, isAsciiLower_toLowerA hc]
    simp)]
  have hcont : ∀ x ∈ cs.map toLowerA, isCamelCont x = true := by
    intro x hx
    rcases List.mem_map.mp hx with ⟨y, hy, he⟩
    rw [← he]
    exact isCamelCont_toLowerA (hal y (by simp [hy]))
  rw [camelAux_chars (cs.map toLowerA) hcont [toLowerA c] _, List.singleton_append]
  rw [camelAux_titles tws h (toLowerA c :: cs.map toLowerA)]

/-! ## Per-style round trips on formatter output -/

theorem camel_roundtrip (ws : List (List Char))
    (h : ∀ w ∈ ws, w ≠ [] ∧ ∀ c ∈ w, isAsciiAlpha c = true)
    (s : List Char) (hc : CamelCase.fmt ws = Except.ok s) :
    CamelCase.fmt (CamelCase.words s) = Except.ok s := by
  cases ws with
  | nil => exact absurd hc (by simp [CamelCase.fmt])
  | cons w rest =>
      have hw := h w (by simp)
      have hrest : ∀ v ∈ rest, v ≠ [] ∧ ∀ c ∈ v, isAsciiAlpha c = true :=
        fun v hvv => h v (by simp [hvv])
      have hc2 : Except.ok (w.map toLowerA ++ (rest.map pyTitle).flatten) = Except.ok s := hc
      have hs := Except.ok.inj hc2
      rw [← hs, camel_words_of_fmt w rest hw hrest]
      show Except.ok ((w.map toLowerA).map toLowerA ++
        ((rest.map pyTitle).map pyTitle).flatten) = _
      have h2 : (rest.map pyTitle).map pyTitle = rest.map pyTitle := by
        rw [List.map_map]
        exact List.map_congr_left (fun v hv2 => pyTitle_pyTitle v (hrest v hv2).2)
      rw [map_toLowerA_idem, h2]

theorem snake_roundtrip (ws : List (List Char))
    (h : ∀ w ∈ ws, w ≠ [] ∧ ∀ c ∈ w, isAsciiAlpha c = true)
    (s : List Char) (hc : SnakeCase.fmt ws = Except.ok s) :
    SnakeCase.fmt (SnakeCase.words s) = Except.ok s := by
  have hc2 : Except.ok (joinSep '_' (ws.map (List.map toLowerA))) = Except.ok s := hc
  have hs := Except.ok.inj hc2
  have hwords : SnakeCase.words (joinSep '_' (ws.map (List.map toLowerA))) =
      ws.map (List.map toLowerA) := by
    apply scanAux_join
    intro w hw
    rcases List.mem_map.mp hw with ⟨v, hv2, rfl⟩
    have hvv := h v hv2
    constructor
    · simpa using hvv.1
    · intro c hcmem
      rcases List.mem_map.mp hcmem with ⟨d, hd, rfl⟩
      exact snake_char_ok (hvv.2 d hd)
  rw [← hs, hwords]
  show Except.ok (joinSep '_' ((ws.map (List.map toLowerA)).map (List.map toLowerA))) = _
  have h2 : (ws.map (List.map toLowerA)).map (List.map toLowerA) =
      ws.map (List.map toLowerA) := by
    rw [List.map_map]
    exact List.map_congr_left (fun v _ => map_toLowerA_idem v)
  rw [h2]

theorem kebab_roundtrip (ws : List (List Char))
    (h : ∀ w ∈ ws, w ≠ [] ∧ ∀ c ∈ w, isAsciiAlpha c = true)
    (s : List Char) (hc : KebabCase.fmt ws = Except.ok s) :
    KebabCase.fmt (KebabCase.words s) = Except.ok s := by
  have hc2 : Except.ok (joinSep '-' (ws.map (List.map toLowerA))) = Except.ok s := hc
  have hs := Except.ok.inj hc2
  have hwords : KebabCase.words (joinSep '-' (ws.map (List.map toLowerA))) =
      ws.map (List.map toLowerA) := by
    apply scanAux_join
    intro w hw
    rcases List.mem_map.mp hw with ⟨v, hv2, rfl⟩
    have hvv := h v hv2
    constructor
    · simpa using hvv.1
    · intro c hcmem
      rcases List.mem_map.mp hcmem with ⟨d, hd, rfl⟩
      exact kebab_char_ok (hvv.2 d hd)
  rw [← hs, hwords]
  show Except.ok (joinSep '-' ((ws.map (List.map toLowerA)).map (List.map toLowerA))) = _
  have h2 : (ws.map (List.map toLowerA)).map (List.map toLowerA) =
      ws.map (List.map toLowerA) := by
    rw [List.map_map]
    exact List.map_congr_left (fun v _ => map_toLowerA_idem v)
  rw [h2]

/-! ## Claim theorems -/

/-- C1: `convert` maps the spec's three example identifiers exactly:
camel "myVariableName" to snake "my_variable_name", snake "my_variable_name"
to kebab "my-variable-name", and kebab "my-variable-name" back to camel
"myVariableName". -/
theorem convert_examples :
    convert "myVariableName".toList CaseStyle.camel CaseStyle.snake =
      Except.ok "my_variable_name".toList ∧
    convert "my_variable_name".toList CaseStyle.snake CaseStyle.kebab =
      Except.ok "my-variable-name".toList ∧
    convert "my-variable-name".toList CaseStyle.kebab CaseStyle.camel =
      Except.ok "myVariableName".toList :=
  ⟨rfl, rfl, rfl⟩

/-- C2 (counterexample): the camel formatter does not titlecase a subsequent
word as "first character uppercased, remainder lowercased".  On the word list
["x", "a1b"] the code produces "xA1B" (Python's `str.title` uppercases the
letter after the digit), not "xA1b" as the claim predicts. -/
theorem camel_fmt_title_counterexample :
    CamelCase.fmt ["x".toList, "a1b".toList] ≠
      Except.ok ("x".toList.map toLowerA ++ specTitle "a1b".toList) := by
  intro h
  have h2 : (Except.ok "xA1B".toList : Except PyErr (List Char)) =
      Except.ok "xA1b".toList := h
  exact absurd (Except.ok.inj h2) (by decide)

/-- C2 (amended): for every non-empty word sequence whose words consist only
of ASCII letters, the camel formatter returns the first word entirely
lowercased followed by each subsequent word with its first character
uppercased and the rest lowercased, concatenated with no separator.  (For
words containing digits or underscores, `str.title` instead uppercases the
letter that follows each non-letter character.) -/
theorem camel_fmt_alpha_words (w : List Char) (ws : List (List Char))
    (h : ∀ v ∈ w :: ws, ∀ c ∈ v, isAsciiAlpha c = true) :
    CamelCase.fmt (w :: ws) =
      Except.ok (w.map toLowerA ++ (ws.map specTitle).flatten) := by
  have hmap : ws.map pyTitle = ws.map specTitle :=
    List.map_congr_left (fun v hv => pyTitle_eq_specTitle v (h v (by simp [hv])))
  show Except.ok (w.map toLowerA ++ (ws.map pyTitle).flatten) = _
  rw [hmap]

/-- Witness for the amended C2 at the word list ["my", "variable", "name"]. -/
theorem camel_fmt_alpha_words_witness :
    (∀ v ∈ ["my".toList, "variable".toList, "name".toList],
        ∀ c ∈ v, isAsciiAlpha c = true) ∧
    CamelCase.fmt ["my".toList, "variable".toList, "name".toList] =
      Except.ok ("my".toList.map toLowerA ++
        (["variable".toList, "name".toList].map specTitle).flatten) :=
  ⟨by decide,
    camel_fmt_alpha_words "my".toList ["variable".toList, "name".toList] (by decide)⟩

/-- C3 (counterexample): "xa_" is the output of
`convert("xa_", camel, snake)` — hence canonical for snake in the claim's
sense — yet `convert("xa_", snake, snake)` is "xa", not "xa_": the camel word
"xa_" carries a trailing underscore that the snake pattern cannot re-segment. -/
theorem convert_self_counterexample :
    convert "xa_".toList CaseStyle.camel CaseStyle.snake = Except.ok "xa_".toList ∧
    convert "xa_".toList CaseStyle.snake CaseStyle.snake = Except.ok "xa".toList ∧
    "xa".toList ≠ "xa_".toList :=
  ⟨rfl, rfl, by decide⟩

/-- C3 (amended): for every style A and every string s = convert(t, S, A)
where each word segmented from t under S is a non-empty run of ASCII letters,
convert(s, A, A) = s.  (Words carrying digits, underscores or hyphens can
break the round trip, as separator characters embedded in a word are not
re-segmented.) -/
theorem convert_roundtrip_self (t : List Char) (S A : CaseStyle)
    (h : ∀ w ∈ S.words t, w ≠ [] ∧ ∀ c ∈ w, isAsciiAlpha c = true)
    (s : List Char) (hc : convert t S A = Except.ok s) :
    convert s A A = Except.ok s := by
  cases A with
  | camel => exact camel_roundtrip (S.words t) h s hc
  | snake => exact snake_roundtrip (S.words t) h s hc
  | kebab => exact kebab_roundtrip (S.words t) h s hc

/-- Witness for the amended C3: "my_variable_name" = convert("myVariableName",
camel, snake) survives convert(·, snake, snake) unchanged. -/
theorem convert_roundtrip_self_witness :
    (∀ w ∈ CaseStyle.words CaseStyle.camel "myVariableName".toList,
        w ≠ [] ∧ ∀ c ∈ w, isAsciiAlpha c = true) ∧
    convert "my_variable_name".toList CaseStyle.snake CaseStyle.snake =
      Except.ok "my_variable_name".toList :=
  ⟨by decide,
    convert_roundtrip_self "myVariableName".toList CaseStyle.camel CaseStyle.snake
      (by decide) "my_variable_name".toList rfl⟩

/-- C9: on an empty word sequence the camel formatter fails with an index
error (it subscripts the first word), while the snake and kebab formatters
both return the empty string. -/
theorem fmt_empty_behavior :
    CamelCase.fmt [] = Except.error PyErr.indexError ∧
    SnakeCase.fmt [] = Except.ok [] ∧
    KebabCase.fmt [] = Except.ok [] :=
  ⟨rfl, rfl, rfl⟩

/-- C4: with `merge_dicts` set and both values dicts, `setdefault` merges
`default` into `value` preferring `value`'s entries (first conjunct, the
spec's example).  But the `depth` parameter is never forwarded to the merge:
called with `depth = 1` on nested dicts, the nested mappings are still merged
(second conjunct), contradicting the claim that depth 1 merges only top-level
keys and passes nested mappings through as `value`'s entry. -/
theorem setdefault_merge_dicts_eval :
    setdefault (pyD [(pyStr "a", pyI 1)]) (pyD [(pyStr "a", pyI 2), (pyStr "b", pyI 3)])
        Option.none false false true 1 =
      Except.ok (pyD [(pyStr "a", pyI 1), (pyStr "b", pyI 3)]) ∧
    setdefault (pyD [(pyStr "a", pyD [(pyStr "x", pyI 1)])])
        (pyD [(pyStr "a", pyD [(pyStr "y", pyI 2)])]) Option.none false false true 1 =
      Except.ok (pyD [(pyStr "a", pyD [(pyStr "x", pyI 1), (pyStr "y", pyI 2)])]) :=
  ⟨rfl, rfl⟩

/-- C5: on `resolve([1, 2], [0], merge_lists=True)` the code does not return
`[0, 1, 2]`: `_setdefault_list` calls `cls(*default, *value)`, i.e.
`list(0, 1, 2)`, and the `list` constructor takes at most one argument, so
the call raises `TypeError` instead of concatenating. -/
theorem setdefault_merge_lists_raises :
    setdefault (pyL [pyI 1, pyI 2]) (pyL [pyI 0]) Option.none true false false 1 =
      Except.error PyErr.typeError :=
  rfl

/-- C6: when `value` is `None`, `setdefault` returns `default`, coerced with
`cls` when one is given; when `value` is present and `default` is `None`, it
returns `value`, likewise coerced; and in particular
`resolve(None, {"a": 1})` is `{"a": 1}`. -/
theorem setdefault_absent_branches :
    (∀ (d : PyVal) (cls : Option PyType) (ml ms md : Bool) (depth : Int),
      setdefault PyVal.none d cls ml ms md depth =
        (match cls with
          | Option.some ty => construct1 ty d
          | Option.none => Except.ok d)) ∧
    (∀ (v : PyVal) (cls : Option PyType) (ml ms md : Bool) (depth : Int),
      v.isNone = false →
      setdefault v PyVal.none cls ml ms md depth =
        (match cls with
          | Option.some ty => construct1 ty v
          | Option.none => Except.ok v)) ∧
    setdefault PyVal.none (pyD [(pyStr "a", pyI 1)]) Option.none false false false 1 =
      Except.ok (pyD [(pyStr "a", pyI 1)]) := by
  refine ⟨fun d cls ml ms md depth => rfl, ?_, rfl⟩
  intro v cls ml ms md depth hv
  cases v with
  | none => exact nomatch hv
  | int n => rfl
  | str s => rfl
  | pylist xs => rfl
  | pyset xs => rfl
  | pydict xs => rfl

/-- Witness for C6's second branch at `value = 5`, `default = None`. -/
theorem setdefault_absent_branches_witness :
    setdefault (pyI 5) PyVal.none Option.none false false false 1 = Except.ok (pyI 5) :=
  setdefault_absent_branches.2.1 (pyI 5) Option.none false false false 1 rfl

/-- C7: with both values present, whenever each set merge flag points at a
merge kind the effective target type is incompatible with, `setdefault`
silently skips the merge and returns `value` unchanged instead of raising. -/
theorem setdefault_merge_skip (v d : PyVal) (cls : Option PyType)
    (ml ms md : Bool) (depth : Int)
    (hv : v.isNone = false) (hd : d.isNone = false)
    (hmd : md = true → (effectiveCls v cls).isMapping = false)
    (hml : ml = true → (effectiveCls v cls).isMutableSequence = false)
    (hms : ms = true → (effectiveCls v cls).isSet = false) :
    setdefault v d cls ml ms md depth = Except.ok v := by
  cases md with
  | true => simp [setdefault, hv, hd, _setdefault_dict, hmd rfl]
  | false =>
      cases ml with
      | true => simp [setdefault, hv, hd, _setdefault_list, hml rfl]
      | false =>
          cases ms with
          | true => simp [setdefault, hv, hd, _setdefault_set, hms rfl]
          | false => simp [setdefault, hv, hd]

/-- Witness for C7: `merge_dicts=True` with two plain strings returns the
original string. -/
theorem setdefault_merge_skip_witness :
    setdefault (pyStr "x") (pyStr "y") Option.none false false true 1 =
      Except.ok (pyStr "x") :=
  setdefault_merge_skip (pyStr "x") (pyStr "y") Option.none false false true 1 rfl rfl
    (fun _ => rfl) (fun h => nomatch h) (fun h => nomatch h)

/-- C10: the result of `setdefault` is the same for any two values of the
`depth` argument — the parameter is accepted but never consulted by the
body. -/
theorem setdefault_depth_irrelevant (v d : PyVal) (cls : Option PyType)
    (ml ms md : Bool) (d1 d2 : Int) :
    setdefault v d cls ml ms md d1 = setdefault v d cls ml ms md d2 :=
  rfl
